import Mathlib

/-!
Verification of the extraction core of `src/data_pipeline.py`.

The Python module scrapes product pages.  Its extraction core consists of
pure functions over an already-parsed HTML document:

  * `_fmt_brl`                        (line 19)  — format a float as "R$ 1.234,56"
  * `_parse_brl_price_text_to_float`  (line 23)  — regex search + parse of BRL price text
  * `_json_loads_flex` / `_json_ld_blocks` (40/47) — JSON-LD block decoding
  * `_extract_name_from_jsonld` / `_extract_name` (60/68) — name cascade
  * `_extract_price_and_currency`     (line 98)  — price cascade A/B/C/D
  * `parse_product`                   (line 172) — entry point

The embedding below models Python machine floats by exact rationals `ℚ`
(non-finite values such as `inf`/`nan` are outside the numeric model),
Python strings by `String`/`List Char` (ASCII semantics for character
classes such as `\s` and `\d`), and a BeautifulSoup document by its query
interface: the list of its element nodes in document order, each with its
tag, attribute map (first value wins for duplicate attributes, as in
html.parser), its `.string` accessor and its descendant text strings, plus
the document's own text-string list.  HTML parsing itself (BeautifulSoup)
and HTTP fetching are external collaborators and are not modelled.
Exceptions that the Python code can actually raise are modelled with
`Except`; exceptions that the code catches locally are modelled by the
`Option` result of the guarded operation.
-/

/-! ### Python string primitives -/

/-- Python whitespace for `str.strip` and the regex class `\s`
(ASCII part: space, tab, newline, carriage return, vertical tab, form feed). -/
def isPySpaceB (c : Char) : Bool :=
  c = ' ' || c = '\t' || c = '\n' || c = '\r' || c = '\x0b' || c = '\x0c'

/-- Python `str.strip()` on a character list: drop whitespace at both ends. -/
def pyStripL (l : List Char) : List Char :=
  ((l.dropWhile isPySpaceB).reverse.dropWhile isPySpaceB).reverse

/-- Python `str.strip()`. -/
def pyStrip (s : String) : String :=
  String.mk (pyStripL s.data)

/-- Does `p` occur at the head of `l`? -/
def startsWithL : List Char → List Char → Bool
  | [], _ => true
  | _ :: _, [] => false
  | p :: ps, c :: cs => p = c && startsWithL ps cs

/-- Python `sub in s` on character lists. -/
def containsSub (l : List Char) (sub : List Char) : Bool :=
  match l with
  | [] => startsWithL sub []
  | _ :: rest => startsWithL sub l || containsSub rest sub

/-- The characters of `l` before the first occurrence of `sub`
(Python `s.split(sub)[0]` when `sub in s`). -/
def takeBeforeL (l : List Char) (sub : List Char) : List Char :=
  match l with
  | [] => []
  | c :: rest => if startsWithL sub l then [] else c :: takeBeforeL rest sub

/-- Python `sub in s`. -/
def strContains (s sub : String) : Bool := containsSub s.data sub.data

/-- Python `s.split(sub)[0]`. -/
def strTakeBefore (s sub : String) : String := String.mk (takeBeforeL s.data sub.data)

/-! ### Decimal digits and decimal notation -/

/-- Numeric value of a decimal digit character. -/
def digVal (c : Char) : ℕ := c.toNat - 48

/-- The character of a decimal digit. -/
def digitChar (d : ℕ) : Char := Char.ofNat (48 + d)

/-- Little-endian decimal digits of `n`, with explicit fuel so that the
definition is structural and evaluates in the kernel. -/
def digitsLE : ℕ → ℕ → List ℕ
  | 0, _ => []
  | fuel + 1, n => if n = 0 then [] else n % 10 :: digitsLE fuel (n / 10)

/-- Little-endian decimal digits of `n`. -/
def digitsRec (n : ℕ) : List ℕ := digitsLE n n

/-- Value of a little-endian digit list. -/
def ofD : List ℕ → ℕ
  | [] => 0
  | d :: ds => d + 10 * ofD ds

/-- Value of a big-endian digit character list. -/
def ofChars (l : List Char) : ℕ := l.foldl (fun a c => 10 * a + digVal c) 0

/-- Little-endian digit characters of the integer `n`, as Python renders it
(`"0"` for zero). -/
def intCharsLE (n : ℕ) : List Char :=
  if n = 0 then ['0'] else (digitsRec n).map digitChar

/-- `10 ^ z` in `ℚ` for an integer exponent. -/
def pow10 (z : ℤ) : ℚ :=
  if 0 ≤ z then ((10 ^ z.toNat : ℕ) : ℚ) else 1 / ((10 ^ (-z).toNat : ℕ) : ℚ)

/-- Model of Python `float(str)` on the finite decimal forms: optional
surrounding whitespace, optional sign, digits with an optional fractional
part and an optional decimal exponent.  Non-finite literals (`inf`, `nan`)
and underscore grouping are outside the numeric model. -/
def pyFloatCharsAux (l : List Char) : Option ℚ :=
  let l := pyStripL l
  let sgn : ℚ := if l.head? = some '-' then -1 else 1
  let l := if l.head? = some '+' ∨ l.head? = some '-' then l.tail else l
  let ds := l.takeWhile Char.isDigit
  let r1 := l.dropWhile Char.isDigit
  let (fs, r2) : List Char × List Char :=
    match r1 with
    | '.' :: r => (r.takeWhile Char.isDigit, r.dropWhile Char.isDigit)
    | r => ([], r)
  if ds.isEmpty && fs.isEmpty then none
  else
    let mant : ℚ := (ofChars ds : ℚ) + (ofChars fs : ℚ) / ((10 ^ fs.length : ℕ) : ℚ)
    match r2 with
    | [] => some (sgn * mant)
    | 'e' :: r3 => pyFloatExp sgn mant r3
    | 'E' :: r3 => pyFloatExp sgn mant r3
    | _ => none
where
  /-- Exponent part of a Python float literal. -/
  pyFloatExp (sgn mant : ℚ) (r : List Char) : Option ℚ :=
    let (esgn, r4) : ℤ × List Char :=
      match r with
      | '+' :: t => (1, t)
      | '-' :: t => (-1, t)
      | t => (1, t)
    let es := r4.takeWhile Char.isDigit
    if es = [] ∨ r4.dropWhile Char.isDigit ≠ [] then none
    else some (sgn * mant * pow10 (esgn * (ofChars es : ℤ)))

/-- Model of Python `float(str)`; `none` models `ValueError`. -/
def pyFloat? (s : String) : Option ℚ := pyFloatCharsAux s.data

/-- Python `str(x).replace(",", ".")` as used before `float(...)`. -/
def commaToDot (s : String) : String :=
  String.mk (s.data.map fun c => if c = ',' then '.' else c)

/-! ### `_fmt_brl` (source line 19): `f"R$ {val:,.2f}"` with separators swapped -/

/-- Rounding of `q` to an integer, ties to even: the rounding Python's
fixed-point formatting applies to the scaled value.  (Python rounds the
nearest binary double; for values in this development's scope the two
agree, exact ties round to even.) -/
def pyRound (q : ℚ) : ℤ :=
  let f : ℤ := q.num.fdiv (q.den : ℤ)
  let r : ℚ := q - (f : ℚ)
  if r < 1 / 2 then f else if 1 / 2 < r then f + 1 else if f % 2 = 0 then f else f + 1

/-- Thousands grouping of the Python format spec `","`: on the little-endian
digit characters, a separator after every three digits. -/
def commaGroup : List Char → List Char
  | a :: b :: c :: d :: rest => a :: b :: c :: ',' :: commaGroup (d :: rest)
  | l => l

/-- The two digit characters of `n % 100`. -/
def twoDigits (n : ℕ) : List Char := [digitChar (n / 10 % 10), digitChar (n % 10)]

/-- Python `f"{val:,.2f}"`: sign, thousands-grouped integer part, point,
two fractional digits. -/
def formatComma2f (v : ℚ) : List Char :=
  let r := pyRound (v * 100)
  let sgn : List Char := if r < 0 then ['-'] else []
  let m := r.natAbs
  sgn ++ (commaGroup (intCharsLE (m / 100))).reverse ++ '.' :: twoDigits m

/-- The separator swap done by
`.replace(",", "X").replace(".", ",").replace("X", ".")`; on the format
output (which never contains `X`) the chain exchanges `,` and `.`. -/
def sepSwap (c : Char) : Char :=
  if c = ',' then '.' else if c = '.' then ',' else c

/-- `_fmt_brl` (line 19): `12.34 ↦ "R$ 12,34"`. -/
def _fmt_brl (v : ℚ) : String :=
  String.mk ('R' :: '$' :: ' ' :: (formatComma2f v).map sepSwap)

/-! ### `BR_PRICE_RE` (source line 17): `R\$\s*\d{1,3}(?:\.\d{3})*,\d{2}`,
case-insensitive, with Python `re.search` leftmost-then-backtracking
semantics -/

/-- The tail `,\d{2}` of the pattern.  Returns consumed characters and rest. -/
def matchComma : List Char → Option (List Char × List Char)
  | ',' :: a :: b :: rest =>
    if a.isDigit && b.isDigit then some ([',', a, b], rest) else none
  | _ => none

/-- The part `(?:\.\d{3})*,\d{2}` of the pattern: greedy star with
backtracking, then the comma tail. -/
def regGroups : List Char → Option (List Char × List Char)
  | '.' :: a :: b :: c :: rest =>
    if a.isDigit && b.isDigit && c.isDigit then
      match regGroups rest with
      | some (g, r) => some ('.' :: a :: b :: c :: g, r)
      | none => matchComma ('.' :: a :: b :: c :: rest)
    else matchComma ('.' :: a :: b :: c :: rest)
  | cs => matchComma cs

/-- One greedy attempt of `\d{k}` followed by the rest of the pattern. -/
def tryIntLen (k : ℕ) (cs : List Char) : Option (List Char × List Char) :=
  let pre := cs.take k
  if pre.length = k && pre.all Char.isDigit then
    match regGroups (cs.drop k) with
    | some (g, r) => some (pre ++ g, r)
    | none => none
  else none

/-- `\d{1,3}(?:\.\d{3})*,\d{2}`: greedy `\d{1,3}` with backtracking. -/
def matchAmount (cs : List Char) : Option (List Char × List Char) :=
  match tryIntLen 3 cs with
  | some x => some x
  | none =>
    match tryIntLen 2 cs with
    | some x => some x
    | none => tryIntLen 1 cs

/-- The whole pattern anchored at the current position (`R`/`r`, `$`,
whitespace run, amount).  Returns the matched characters. -/
def matchBRAt : List Char → Option (List Char)
  | c1 :: '$' :: rest =>
    if c1 = 'R' || c1 = 'r' then
      match matchAmount (rest.dropWhile isPySpaceB) with
      | some (m, _) => some (c1 :: '$' :: (rest.takeWhile isPySpaceB ++ m))
      | none => none
    else none
  | _ => none

/-- `re.search`: the match at the leftmost position where one exists. -/
def brSearchList : List Char → Option (List Char)
  | [] => none
  | c :: rest =>
    match matchBRAt (c :: rest) with
    | some m => some m
    | none => brSearchList rest

/-- `BR_PRICE_RE.search(text)`, returning `group(0)`. -/
def BR_PRICE_search (s : String) : Option String :=
  (brSearchList s.data).map String.mk

/-- Leftmost non-overlapping removal of the two-character pattern `R$`
(Python `raw.replace("R$", "")`). -/
def stripRS : List Char → List Char
  | 'R' :: '$' :: rest => stripRS rest
  | c :: rest => c :: stripRS rest
  | [] => []

/-- `_parse_brl_price_text_to_float` (line 23): `'R$ 12,34' ↦ 12.34`,
first match in the text; `none` on no match or parse failure. -/
def _parse_brl_price_text_to_float (text : String) : Option ℚ :=
  if text = "" then none
  else
    match BR_PRICE_search text with
    | none => none
    | some raw =>
      let num := pyStripL (stripRS raw.data)
      let num := (num.filter fun c => !(c == '.')).map fun c => if c = ',' then '.' else c
      pyFloatCharsAux num

/-! ### JSON values and `json.loads` (used by `_json_loads_flex`, line 40) -/

/-- Decoded JSON values.  Objects keep their key/value pairs in source
order; lookups take the last binding, as Python dict construction does.
Numbers are exact rationals (non-finite extensions are outside the model). -/
inductive Json where
  | null : Json
  | bool (b : Bool) : Json
  | num (q : ℚ) : Json
  | str (s : String) : Json
  | arr (xs : List Json) : Json
  | obj (kvs : List (String × Json)) : Json

/-- Python `x == someString` for a decoded JSON value: only an equal
string compares equal. -/
def Json.eqStr : Json → String → Bool
  | .str s, t => s == t
  | _, _ => false

/-- Python `d.get(k)` on a decoded object: the last binding of `k`. -/
def jget (kvs : List (String × Json)) (k : String) : Option Json :=
  (kvs.reverse.find? fun p => p.1 == k).map (·.2)

/-- Python truthiness of a decoded JSON value. -/
def Json.truthy : Json → Bool
  | .null => false
  | .bool b => b
  | .num q => !(q == 0)
  | .str s => !(s == "")
  | .arr xs => !xs.isEmpty
  | .obj kvs => !kvs.isEmpty

/-- JSON whitespace. -/
def jskip (l : List Char) : List Char :=
  l.dropWhile fun c => c = ' ' || c = '\t' || c = '\n' || c = '\r'

/-- Hexadecimal digit value. -/
def hexVal (c : Char) : Option ℕ :=
  if '0' ≤ c ∧ c ≤ '9' then some (c.toNat - 48)
  else if 'a' ≤ c ∧ c ≤ 'f' then some (c.toNat - 87)
  else if 'A' ≤ c ∧ c ≤ 'F' then some (c.toNat - 70)
  else none

/-- JSON string body after the opening quote: literal characters and the
standard escapes (lone surrogate escapes are outside the model). -/
def jstrAux (acc : List Char) : List Char → Option (String × List Char)
  | '"' :: rest => some (String.mk acc.reverse, rest)
  | '\\' :: '"' :: r => jstrAux ('"' :: acc) r
  | '\\' :: '\\' :: r => jstrAux ('\\' :: acc) r
  | '\\' :: '/' :: r => jstrAux ('/' :: acc) r
  | '\\' :: 'b' :: r => jstrAux ('\x08' :: acc) r
  | '\\' :: 'f' :: r => jstrAux ('\x0c' :: acc) r
  | '\\' :: 'n' :: r => jstrAux ('\n' :: acc) r
  | '\\' :: 'r' :: r => jstrAux ('\r' :: acc) r
  | '\\' :: 't' :: r => jstrAux ('\t' :: acc) r
  | '\\' :: 'u' :: a :: b :: c :: d :: r =>
    match hexVal a, hexVal b, hexVal c, hexVal d with
    | some x, some y, some z, some w =>
      jstrAux (Char.ofNat (((x * 16 + y) * 16 + z) * 16 + w) :: acc) r
    | _, _, _, _ => none
  | '\\' :: _ => none
  | c :: rest => if c.toNat < 32 then none else jstrAux (c :: acc) rest
  | [] => none

/-- JSON number: `-?(0|[1-9]\d*)(\.\d+)?([eE][+-]?\d+)?`. -/
def jnum (cs : List Char) : Option (ℚ × List Char) :=
  let (sgn, r) : ℚ × List Char :=
    match cs with
    | '-' :: r => (-1, r)
    | r => (1, r)
  let ds := r.takeWhile Char.isDigit
  let r1 := r.dropWhile Char.isDigit
  match ds with
  | [] => none
  | d0 :: drest =>
    if d0 = '0' ∧ drest ≠ [] then none
    else
      let (fs, r2) : List Char × List Char :=
        match r1 with
        | '.' :: t => (t.takeWhile Char.isDigit, t.dropWhile Char.isDigit)
        | t => ([], t)
      if (match r1 with | '.' :: _ => fs.isEmpty | _ => false) then none
      else
        let mant : ℚ := sgn * ((ofChars ds : ℚ) + (ofChars fs : ℚ) / ((10 ^ fs.length : ℕ) : ℚ))
        match r2 with
        | 'e' :: r3 => jnumExp mant r3
        | 'E' :: r3 => jnumExp mant r3
        | _ => some (mant, r2)
where
  /-- Exponent part of a JSON number. -/
  jnumExp (mant : ℚ) (r : List Char) : Option (ℚ × List Char) :=
    let (esgn, r4) : ℤ × List Char :=
      match r with
      | '+' :: t => (1, t)
      | '-' :: t => (-1, t)
      | t => (1, t)
    let es := r4.takeWhile Char.isDigit
    if es.isEmpty then none
    else some (mant * pow10 (esgn * (ofChars es : ℤ)), r4.dropWhile Char.isDigit)

mutual

/-- One JSON value, recursive on fuel. -/
def jVal : ℕ → List Char → Option (Json × List Char)
  | 0, _ => none
  | fuel + 1, cs =>
    match jskip cs with
    | '{' :: r =>
      (match jskip r with
      | '}' :: r2 => some (.obj [], r2)
      | r2 =>
        match jObjItems fuel r2 with
        | some (kvs, r3) => some (.obj kvs, r3)
        | none => none)
    | '[' :: r =>
      (match jskip r with
      | ']' :: r2 => some (.arr [], r2)
      | r2 =>
        match jArrItems fuel r2 with
        | some (xs, r3) => some (.arr xs, r3)
        | none => none)
    | '"' :: r => (jstrAux [] r).map fun p => (.str p.1, p.2)
    | 't' :: 'r' :: 'u' :: 'e' :: r => some (.bool true, r)
    | 'f' :: 'a' :: 'l' :: 's' :: 'e' :: r => some (.bool false, r)
    | 'n' :: 'u' :: 'l' :: 'l' :: r => some (.null, r)
    | r => (jnum r).map fun p => (.num p.1, p.2)

/-- Comma-separated array items up to the closing bracket. -/
def jArrItems : ℕ → List Char → Option (List Json × List Char)
  | 0, _ => none
  | fuel + 1, cs =>
    match jVal fuel cs with
    | none => none
    | some (v, r) =>
      match jskip r with
      | ',' :: r2 =>
        (match jArrItems fuel r2 with
        | some (xs, r3) => some (v :: xs, r3)
        | none => none)
      | ']' :: r2 => some ([v], r2)
      | _ => none

/-- Comma-separated object members up to the closing brace. -/
def jObjItems : ℕ → List Char → Option (List (String × Json) × List Char)
  | 0, _ => none
  | fuel + 1, cs =>
    match jskip cs with
    | '"' :: r =>
      (match jstrAux [] r with
      | none => none
      | some (k, r2) =>
        match jskip r2 with
        | ':' :: r3 =>
          (match jVal fuel r3 with
          | none => none
          | some (v, r4) =>
            match jskip r4 with
            | ',' :: r5 =>
              (match jObjItems fuel r5 with
              | some (kvs, r6) => some ((k, v) :: kvs, r6)
              | none => none)
            | '}' :: r5 => some ([(k, v)], r5)
            | _ => none)
        | _ => none)
    | _ => none

end

/-- Model of strict `json.loads`: one value, surrounding whitespace, whole
input consumed; `none` models a raised decoding error. -/
def jloads (s : String) : Option Json :=
  match jVal (s.data.length + 1) s.data with
  | some (v, rest) => if jskip rest = [] then some v else none
  | none => none

/-- `_json_loads_flex` (line 40): `json.loads` with every exception mapped
to `None`. -/
def _json_loads_flex (s : String) : Option Json := jloads s

/-! ### The parsed document model -/

/-- An element node as BeautifulSoup exposes it: tag name, attribute map
(first value wins for a duplicated attribute, as in html.parser), the
`.string` accessor (the lone string descendant, when unique), and the
descendant text strings in document order (`.text` / `get_text`). -/
structure Elem where
  tag : String
  attrs : List (String × String)
  string : Option String
  texts : List String
deriving DecidableEq

/-- A parsed document at its query interface: element nodes in document
order, plus the document's text strings in document order. -/
structure Doc where
  elems : List Elem
  texts : List String
deriving DecidableEq

/-- `el.get(key)`. -/
def attrOf (el : Elem) (key : String) : Option String :=
  (el.attrs.find? fun p => p.1 == key).map (·.2)

/-- `soup.find(tagName, {attrKey: attrVal})`: first matching element in
document order. -/
def findTagAttr (d : Doc) (tagName attrKey attrVal : String) : Option Elem :=
  d.elems.find? fun el => el.tag == tagName && attrOf el attrKey == some attrVal

/-- `soup.find("meta", {"property": prop})`. -/
def findMeta (d : Doc) (prop : String) : Option Elem :=
  findTagAttr d "meta" "property" prop

/-- `soup.find(tagName)`. -/
def findTag (d : Doc) (tagName : String) : Option Elem :=
  d.elems.find? fun el => el.tag == tagName

/-- `soup.select_one('[itemprop="price"]')`: first element carrying that
attribute value, any tag. -/
def selectItempropPrice (d : Doc) : Option Elem :=
  d.elems.find? fun el => attrOf el "itemprop" == some "price"

/-- `soup.find_all("script", {"type": "application/ld+json"})`, in document
order. -/
def ldScripts (d : Doc) : List Elem :=
  d.elems.filter fun el =>
    el.tag == "script" && attrOf el "type" == some "application/ld+json"

/-- `el.get_text(" ", strip=True)`: descendant strings stripped, empties
dropped, joined by the separator. -/
def getTextSep (el : Elem) : String :=
  String.intercalate " " ((el.texts.map pyStrip).filter fun s => !(s == ""))

/-- `soup.get_text(" ", strip=True)` over the whole document. -/
def pageText (d : Doc) : String :=
  String.intercalate " " ((d.texts.map pyStrip).filter fun s => !(s == ""))

/-- `(tag.string or tag.text or "").strip()` (line 50).  When `.string` is
set it equals the lone text descendant, so every branch reduces to the
concatenated descendant text; the model still follows the source's `or`
chain literally. -/
def scriptText (el : Elem) : String :=
  pyStrip (match el.string with
    | some s => if s = "" then String.join el.texts else s
    | none => String.join el.texts)

/-- `_json_ld_blocks` (line 47): the source's append/extend loop over the
JSON-LD script tags. -/
def _json_ld_blocks (d : Doc) : List (List (String × Json)) :=
  (ldScripts d).foldl
    (fun blocks tag =>
      let txt := scriptText tag
      if txt = "" then blocks
      else
        match _json_loads_flex txt with
        | some (.obj kvs) => blocks ++ [kvs]
        | some (.arr xs) =>
          blocks ++ xs.filterMap fun x => match x with | .obj kvs => some kvs | _ => none
        | _ => blocks)
    []

/-- One script element's contribution as the spec words it (§4.1): the
stripped text strictly decoded; a block may decode to a single object or
an array of objects — flatten arrays, keep only mapping-typed entries,
drop non-decodable or empty blocks silently. -/
def decodeOneBlock (tag : Elem) : List (List (String × Json)) :=
  let txt := scriptText tag
  if txt = "" then []
  else
    match _json_loads_flex txt with
    | some (.obj kvs) => [kvs]
    | some (.arr xs) => xs.filterMap fun x => match x with | .obj kvs => some kvs | _ => none
    | _ => []

/-- `decodeStructuredBlocks` as the spec words it (§4.1): every JSON-LD
script element's decoded mapping-typed entries, in document order. -/
def decodeStructuredBlocks (d : Doc) : List (List (String × Json)) :=
  (ldScripts d).flatMap decodeOneBlock

/-! ### Name extraction (source lines 60–96) -/

/-- The exceptions the extraction core can actually raise. -/
inductive PyErr where
  | attributeError : PyErr
deriving DecidableEq

/-- `_extract_name_from_jsonld` (line 60): scan for an `@type == "Product"`
block with a truthy `"name"`; on the first such block, return
`obj["name"].strip() or None`.  When the truthy name value is not a string
the attribute access `.strip()` raises `AttributeError`. -/
def _extract_name_from_jsonld : List (List (String × Json)) → Except PyErr (Option String)
  | [] => .ok none
  | obj :: rest =>
    if ((jget obj "@type").any fun j => j.eqStr "Product") = true
        ∧ ((jget obj "name").any Json.truthy) = true then
      match jget obj "name" with
      | some (.str s) => .ok (if pyStrip s = "" then none else some (pyStrip s))
      | _ => .error .attributeError
    else _extract_name_from_jsonld rest

/-- Step 2 of the name cascade (lines 74–79): the `og:title` meta content,
stripped; absent when the meta, its content, or the stripped value is
missing/empty. -/
def ogTitleStep (d : Doc) : Option String :=
  match findMeta d "og:title" with
  | some og =>
    (match attrOf og "content" with
    | some c =>
      if c = "" then none
      else if pyStrip c = "" then none else some (pyStrip c)
    | none => none)
  | none => none

/-- Step 3 of the name cascade (lines 81–86): the first `h1`'s visible
text; absent when there is no `h1` or its text is empty. -/
def h1Step (d : Doc) : Option String :=
  match findTag d "h1" with
  | some h1 => if getTextSep h1 = "" then none else some (getTextSep h1)
  | none => none

/-- The separator split of step 4 (lines 91–94): the first separator of
`" | "`, `" – "`, `" - "` — in that fixed order — found anywhere in the
title decides the split; otherwise the whole title. -/
def titleSplit (title : String) : String :=
  if strContains title " | " then pyStrip (strTakeBefore title " | ")
  else if strContains title " – " then pyStrip (strTakeBefore title " – ")
  else if strContains title " - " then pyStrip (strTakeBefore title " - ")
  else title

/-- Step 4 of the name cascade (lines 88–94): `soup.title.string`,
stripped and separator-split; absent when the title or its `.string` is
missing/empty (the split itself always returns, possibly `""`). -/
def titleStep (d : Doc) : Option String :=
  match findTag d "title" with
  | some t =>
    (match t.string with
    | some s => if s = "" then none else some (titleSplit (pyStrip s))
    | none => none)
  | none => none

/-- Python truthiness of the optional name (`if name:`). -/
def optTruthy : Option String → Bool
  | some s => !(s == "")
  | none => false

/-- `_extract_name` (line 68): JSON-LD name, else `og:title`, else `h1`,
else `<title>`, else absent.  An `AttributeError` from the JSON-LD step
propagates. -/
def _extract_name (d : Doc) : Except PyErr (Option String) :=
  match _extract_name_from_jsonld (_json_ld_blocks d) with
  | .error e => .error e
  | .ok name =>
    if optTruthy name then .ok name
    else
      match ogTitleStep d with
      | some v => .ok (some v)
      | none =>
        match h1Step d with
        | some t => .ok (some t)
        | none =>
          match titleStep d with
          | some r => .ok (some r)
          | none => .ok none

/-! ### Price extraction (source lines 98–154) -/

/-- The quadruple `(price_text, price_value, currency, source_hint)`
returned by `_extract_price_and_currency`. -/
structure PriceOut where
  price_text : Option String
  price_value : Option ℚ
  currency : Option String
  hint : Option String
deriving DecidableEq

/-- Currency resolution of strategy A (lines 112–115): `"BRL"` unless a
`product:price:currency` meta supplies a non-empty content whose stripped
value is non-empty. -/
def currA (d : Doc) : String :=
  match findMeta d "product:price:currency" with
  | some mc =>
    (match attrOf mc "content" with
    | some c2 =>
      if c2 = "" then "BRL"
      else if pyStrip c2 = "" then "BRL" else pyStrip c2
    | none => "BRL")
  | none => "BRL"

/-- Strategy A (lines 107–118): `product:price:amount` meta content parsed
as a float (comma as decimal point); a parse failure is caught and yields
`none` (fall through). -/
def stratA (d : Doc) : Option PriceOut :=
  match findMeta d "product:price:amount" with
  | some m =>
    (match attrOf m "content" with
    | some c =>
      if c = "" then none
      else
        match pyFloat? (commaToDot c) with
        | some val =>
          some ⟨some (_fmt_brl val), some val, some (currA d),
            some "meta[property=\"product:price:amount\"]"⟩
        | none => none
    | none => none)
  | none => none

/-- The body of strategy B once `raw` is bound (lines 124–131): direct
float parse (comma as decimal point), then the BRL regex parser on the
same raw string; nothing when `raw` is falsy. -/
def stratBParse (raw : String) : Option PriceOut :=
  if raw = "" then none
  else
    match pyFloat? (commaToDot raw) with
    | some val => some ⟨some (_fmt_brl val), some val, some "BRL", some "itemprop=\"price\""⟩
    | none =>
      match _parse_brl_price_text_to_float raw with
      | some p => some ⟨some (_fmt_brl p), some p, some "BRL", some "itemprop=\"price\" (regex)"⟩
      | none => none

/-- Strategy B (lines 120–131): first `[itemprop="price"]` element,
`raw` taken from the content attribute when truthy, else the visible
text. -/
def stratB (d : Doc) : Option PriceOut :=
  match selectItempropPrice d with
  | some el =>
    stratBParse
      (match attrOf el "content" with
      | some c => if c = "" then getTextSep el else c
      | none => getTextSep el)
  | none => none

/-- One candidate of strategy C (lines 134–146): a named meta amount with
its correspondingly named currency meta. -/
def stratCOne (d : Doc) (prop cprop hint : String) : Option PriceOut :=
  match findMeta d prop with
  | some m =>
    (match attrOf m "content" with
    | some c =>
      if c = "" then none
      else
        match pyFloat? (commaToDot c) with
        | some val =>
          let curr :=
            match findMeta d cprop with
            | some mc =>
              (match attrOf mc "content" with
              | some c2 =>
                if c2 = "" then "BRL"
                else if pyStrip c2 = "" then "BRL" else pyStrip c2
              | none => "BRL")
            | none => "BRL"
          some ⟨some (_fmt_brl val), some val, some curr, some hint⟩
        | none => none
    | none => none)
  | none => none

/-- Strategy C: the loop over `("og:price:amount",
"product:sale_price:amount")`, with `prop.replace(":amount", ":currency")`
spelled out per candidate. -/
def stratC (d : Doc) : Option PriceOut :=
  match stratCOne d "og:price:amount" "og:price:currency"
      "meta[property=\"og:price:amount\"]" with
  | some r => some r
  | none =>
    stratCOne d "product:sale_price:amount" "product:sale_price:currency"
      "meta[property=\"product:sale_price:amount\"]"

/-- Strategy D (lines 148–152): the BRL regex over the whole document
text. -/
def stratD (d : Doc) : Option PriceOut :=
  match _parse_brl_price_text_to_float (pageText d) with
  | some p => some ⟨some (_fmt_brl p), some p, some "BRL", some "regex-dom"⟩
  | none => none

/-- Strategies B, C and D in order: what runs when strategy A does not
return. -/
def stratBCD (d : Doc) : PriceOut :=
  match stratB d with
  | some r => r
  | none =>
    match stratC d with
    | some r => r
    | none =>
      match stratD d with
      | some r => r
      | none => ⟨none, none, none, none⟩

/-- `_extract_price_and_currency` (line 98): the A/B/C/D cascade. -/
def _extract_price_and_currency (d : Doc) : PriceOut :=
  match stratA d with
  | some r => r
  | none => stratBCD d

/-- `parse_product` (line 172): extract the name (whose JSON-LD step may
raise) and the price quadruple, then return the triple
`(url, name, price_value)` — the annotated `dict` is not what the code
builds, and `price_text`, `currency` and the hint are dropped. -/
def parse_product (d : Doc) (url : Option String) :
    Except PyErr (Option String × Option String × Option ℚ) :=
  match _extract_name d with
  | .error e => .error e
  | .ok name =>
    let r := _extract_price_and_currency d
    .ok (url, name, r.price_value)

/-! ### Auxiliary lemmas: digit characters and decimal digit lists -/

theorem digitChar_props {d : ℕ} (h : d < 10) :
    (digitChar d).isDigit = true ∧ digVal (digitChar d) = d ∧
    sepSwap (digitChar d) = digitChar d ∧ isPySpaceB (digitChar d) = false ∧
    digitChar d ≠ '.' ∧ digitChar d ≠ ',' ∧ digitChar d ≠ 'R' ∧
    digitChar d ≠ '+' ∧ digitChar d ≠ '-' := by
  interval_cases d <;> exact ⟨rfl, rfl, rfl, rfl, by decide, by decide, by decide, by decide,
    by decide⟩

theorem digitsLE_lt {fuel n d : ℕ} (h : d ∈ digitsLE fuel n) : d < 10 := by
  induction fuel generalizing n with
  | zero => simp [digitsLE] at h
  | succ fuel ih =>
    rw [digitsLE] at h
    split at h
    · simp at h
    · rcases List.mem_cons.mp h with h' | h'
      · subst h'
        exact Nat.mod_lt _ (by omega)
      · exact ih h'

theorem ofD_digitsLE {fuel n : ℕ} (h : n ≤ fuel) : ofD (digitsLE fuel n) = n := by
  induction fuel generalizing n with
  | zero =>
    interval_cases n
    rfl
  | succ fuel ih =>
    rw [digitsLE]
    split
    · simpa [ofD] using by omega
    · rw [ofD, ih (by omega)]
      omega

theorem ofD_digitsRec (n : ℕ) : ofD (digitsRec n) = n := ofD_digitsLE le_rfl

theorem digitsRec_ne_nil {n : ℕ} (h : n ≠ 0) : digitsRec n ≠ [] := by
  obtain ⟨m, rfl⟩ := Nat.exists_eq_succ_of_ne_zero h
  rw [digitsRec, digitsLE]
  simp

/-- Folding the decimal accumulator over a reversed digit-character list. -/
theorem foldl_digits_reverse (ds : List ℕ) (hds : ∀ d ∈ ds, d < 10) (a : ℕ) :
    List.foldl (fun a c => 10 * a + digVal c) a ((ds.map digitChar).reverse) =
      a * 10 ^ ds.length + ofD ds := by
  induction ds generalizing a with
  | nil => simp [ofD]
  | cons d ds ih =>
    have hd : d < 10 := hds d (by simp)
    rw [List.map_cons, List.reverse_cons, List.foldl_append,
      ih (fun x hx => hds x (by simp [hx]))]
    simp only [List.foldl_cons, List.foldl_nil, ofD, List.length_cons,
      (digitChar_props hd).2.1]
    ring

theorem ofChars_intCharsLE (n : ℕ) : ofChars ((intCharsLE n).reverse) = n := by
  rw [intCharsLE]
  split
  · subst_vars
    rfl
  · rw [ofChars,
      foldl_digits_reverse (digitsRec n) (fun d hd => digitsLE_lt (by rwa [digitsRec] at hd)) 0]
    simp [ofD_digitsRec]

theorem intCharsLE_isDigit {n : ℕ} {c : Char} (h : c ∈ intCharsLE n) : c.isDigit = true := by
  rw [intCharsLE] at h
  split at h
  · simp at h
    subst h
    rfl
  · obtain ⟨d, hd, rfl⟩ := List.mem_map.mp h
    exact (digitChar_props (digitsLE_lt hd)).1

/-- A digit character differs from any character that is not a digit. -/
theorem isDigit_ne {c x : Char} (h : c.isDigit = true) (hx : x.isDigit = false) : c ≠ x := by
  intro he
  subst he
  rw [h] at hx
  cases hx

theorem sepSwap_of_isDigit {c : Char} (h : c.isDigit = true) : sepSwap c = c := by
  rw [sepSwap, if_neg (isDigit_ne h (by decide)), if_neg (isDigit_ne h (by decide))]

theorem isPySpaceB_of_isDigit {c : Char} (h : c.isDigit = true) : isPySpaceB c = false := by
  have h1 : c ≠ ' ' := isDigit_ne h (by decide)
  have h2 : c ≠ '\t' := isDigit_ne h (by decide)
  have h3 : c ≠ '\n' := isDigit_ne h (by decide)
  have h4 : c ≠ '\r' := isDigit_ne h (by decide)
  have h5 : c ≠ '\x0b' := isDigit_ne h (by decide)
  have h6 : c ≠ '\x0c' := isDigit_ne h (by decide)
  simp [isPySpaceB, h1, h2, h3, h4, h5, h6]

/-! ### Auxiliary lemmas: takeWhile/dropWhile spans and stripping -/

theorem takeWhile_all {p : Char → Bool} {A : List Char} (h : ∀ c ∈ A, p c = true) :
    A.takeWhile p = A := by
  induction A with
  | nil => rfl
  | cons a A ih =>
    simp only [List.takeWhile_cons, h a (by simp), if_true]
    rw [ih fun c hc => h c (by simp [hc])]

theorem dropWhile_all {p : Char → Bool} {A : List Char} (h : ∀ c ∈ A, p c = true) :
    A.dropWhile p = [] := by
  induction A with
  | nil => rfl
  | cons a A ih =>
    simp only [List.dropWhile_cons, h a (by simp), if_true]
    exact ih fun c hc => h c (by simp [hc])

theorem takeWhile_span {p : Char → Bool} {A : List Char} {b : Char} {B : List Char}
    (hA : ∀ c ∈ A, p c = true) (hb : p b = false) :
    (A ++ b :: B).takeWhile p = A ∧ (A ++ b :: B).dropWhile p = b :: B := by
  induction A with
  | nil => simp [List.takeWhile_cons, List.dropWhile_cons, hb]
  | cons a A ih =>
    have ha : p a = true := hA a (by simp)
    obtain ⟨ht, hd⟩ := ih fun c hc => hA c (by simp [hc])
    rw [List.cons_append]
    refine ⟨?_, ?_⟩
    · simp only [List.takeWhile_cons, ha, if_true]
      rw [ht]
    · simp only [List.dropWhile_cons, ha, if_true]
      rw [hd]

theorem dropWhile_none {p : Char → Bool} {A : List Char} (h : ∀ c ∈ A, p c = false) :
    A.dropWhile p = A := by
  cases A with
  | nil => rfl
  | cons a A => simp [List.dropWhile_cons, h a (by simp)]

theorem pyStripL_id {X : List Char} (h : ∀ c ∈ X, isPySpaceB c = false) : pyStripL X = X := by
  rw [pyStripL, dropWhile_none h, dropWhile_none (by simpa using h), List.reverse_reverse]

theorem pyStripL_cons_space {X : List Char} (h : ∀ c ∈ X, isPySpaceB c = false) :
    pyStripL (' ' :: X) = X := by
  have hsp : isPySpaceB ' ' = true := rfl
  rw [pyStripL, List.dropWhile_cons]
  simp only [hsp, if_true]
  rw [dropWhile_none h, dropWhile_none (by simpa using h), List.reverse_reverse]

/-! ### Auxiliary lemmas: `pyFloatCharsAux` on a canonical decimal string -/

theorem pyFloatCharsAux_canonical {I : List Char} {t1 t2 : Char}
    (hI : ∀ c ∈ I, c.isDigit = true) (hne : I ≠ [])
    (h1 : t1.isDigit = true) (h2 : t2.isDigit = true) :
    pyFloatCharsAux (I ++ '.' :: [t1, t2]) =
      some ((ofChars I : ℚ) + ((10 * digVal t1 + digVal t2 : ℕ) : ℚ) / 100) := by
  obtain ⟨c0, I', rfl⟩ : ∃ c0 I', I = c0 :: I' := by
    cases I with
    | nil => exact absurd rfl hne
    | cons c0 I' => exact ⟨c0, I', rfl⟩
  have hsp : ∀ c ∈ (c0 :: I') ++ '.' :: [t1, t2], isPySpaceB c = false := by
    intro c hc
    simp only [List.mem_append, List.mem_cons] at hc
    rcases hc with (hc | hc) | (hc | hc | hc | hc)
    · exact isPySpaceB_of_isDigit (hI c (by simp [hc]))
    · exact isPySpaceB_of_isDigit (hI c (by simp [hc]))
    · subst hc; rfl
    · subst hc; exact isPySpaceB_of_isDigit h1
    · subst hc; exact isPySpaceB_of_isDigit h2
    · simp at hc
  have hc0 : c0.isDigit = true := hI c0 (by simp)
  have hspan := takeWhile_span (p := Char.isDigit) (B := [t1, t2]) hI
    (by decide : Char.isDigit '.' = false)
  have hdig2 : ∀ c ∈ [t1, t2], Char.isDigit c = true := by
    intro c hc
    rcases List.mem_cons.mp hc with hc | hc
    · subst hc; exact h1
    · simp at hc; subst hc; exact h2
  have hfs : List.takeWhile Char.isDigit [t1, t2] = [t1, t2] := takeWhile_all hdig2
  have hr2 : List.dropWhile Char.isDigit [t1, t2] = [] := dropWhile_all hdig2
  have hplus : ¬((c0 :: (I' ++ '.' :: [t1, t2])).head? = some '+' ∨
      (c0 :: (I' ++ '.' :: [t1, t2])).head? = some '-') := by
    push_neg
    constructor
    · simpa using isDigit_ne hc0 (by decide : Char.isDigit '+' = false)
    · simpa using isDigit_ne hc0 (by decide : Char.isDigit '-' = false)
  have hminus : ¬(c0 :: (I' ++ '.' :: [t1, t2])).head? = some '-' := by
    simpa using isDigit_ne hc0 (by decide : Char.isDigit '-' = false)
  rw [pyFloatCharsAux, pyStripL_id hsp]
  simp only [List.cons_append, if_neg hplus, if_neg hminus]
  rw [show c0 :: (I' ++ '.' :: [t1, t2]) = (c0 :: I') ++ '.' :: [t1, t2] by simp]
  rw [hspan.1, hspan.2]
  simp only [hfs, hr2]
  rw [if_neg (by simp)]
  have hoc : ofChars [t1, t2] = 10 * digVal t1 + digVal t2 := by
    simp [ofChars, List.foldl]
  rw [hoc]
  norm_num

/-! ### Auxiliary lemmas: the price pattern on a canonically formatted
amount -/

/-- The concatenation of dot-prefixed three-digit chunks. -/
def dotsJoin (cs : List (List Char)) : List Char :=
  (cs.map fun ch => '.' :: ch).flatten

theorem dotsJoin_append_single (cs : List (List Char)) (ch : List Char) :
    dotsJoin (cs ++ [ch]) = dotsJoin cs ++ '.' :: ch := by
  simp [dotsJoin]

theorem regGroups_canonical {cs : List (List Char)}
    (hcs : ∀ ch ∈ cs, ch.length = 3 ∧ ∀ c ∈ ch, c.isDigit = true)
    {t1 t2 : Char} (h1 : t1.isDigit = true) (h2 : t2.isDigit = true) (rest : List Char) :
    regGroups (dotsJoin cs ++ ',' :: t1 :: t2 :: rest) =
      some (dotsJoin cs ++ [',', t1, t2], rest) := by
  induction cs with
  | nil => simp [dotsJoin, regGroups, matchComma, h1, h2]
  | cons ch cs ih =>
    obtain ⟨hl, hd⟩ := hcs ch (by simp)
    obtain ⟨x, y, z, rfl⟩ : ∃ x y z, ch = [x, y, z] := by
      rcases ch with _ | ⟨x, _ | ⟨y, _ | ⟨z, _ | _⟩⟩⟩ <;> simp at hl
      exact ⟨x, y, z, rfl⟩
    have hx : x.isDigit = true := hd x (by simp)
    have hy : y.isDigit = true := hd y (by simp)
    have hz : z.isDigit = true := hd z (by simp)
    have hrest := ih fun c hc => hcs c (by simp [hc])
    simp only [dotsJoin, List.map_cons, List.flatten_cons, List.cons_append,
      List.append_assoc] at hrest ⊢
    rw [regGroups, hx, hy, hz]
    simp only [Bool.and_self, if_true, List.nil_append]
    rw [hrest]

theorem matchAmount_canonical {f : List Char} (hf1 : 1 ≤ f.length) (hf3 : f.length ≤ 3)
    (hfd : ∀ c ∈ f, c.isDigit = true)
    {cs : List (List Char)} (hcs : ∀ ch ∈ cs, ch.length = 3 ∧ ∀ c ∈ ch, c.isDigit = true)
    {t1 t2 : Char} (h1 : t1.isDigit = true) (h2 : t2.isDigit = true) (rest : List Char) :
    matchAmount (f ++ (dotsJoin cs ++ ',' :: t1 :: t2 :: rest)) =
      some (f ++ (dotsJoin cs ++ [',', t1, t2]), rest) := by
  obtain ⟨h0, tl, hXeq, hh0⟩ :
      ∃ h0 tl, dotsJoin cs ++ ',' :: t1 :: t2 :: rest = h0 :: tl ∧ h0.isDigit = false := by
    cases cs with
    | nil => exact ⟨',', t1 :: t2 :: rest, by simp [dotsJoin], by decide⟩
    | cons ch cs' =>
      refine ⟨'.', ch ++ (dotsJoin cs' ++ ',' :: t1 :: t2 :: rest), ?_, by decide⟩
      simp [dotsJoin]
  have hreg := regGroups_canonical hcs h1 h2 rest
  rcases f with _ | ⟨a, _ | ⟨b, _ | ⟨c, _ | _⟩⟩⟩
  · simp at hf1
  · have ha : a.isDigit = true := hfd a (by simp)
    rw [matchAmount]
    rw [show tryIntLen 3 ([a] ++ (dotsJoin cs ++ ',' :: t1 :: t2 :: rest)) = none by
      rw [tryIntLen, if_neg]
      simp only [List.singleton_append, hXeq, List.take_succ_cons, List.all_cons, hh0]
      simp]
    rw [show tryIntLen 2 ([a] ++ (dotsJoin cs ++ ',' :: t1 :: t2 :: rest)) = none by
      rw [tryIntLen, if_neg]
      simp only [List.singleton_append, hXeq, List.take_succ_cons, List.all_cons, hh0]
      simp]
    rw [tryIntLen, if_pos (by simp [ha])]
    simp only [List.singleton_append, List.drop_succ_cons, List.drop_zero, List.take_succ_cons,
      List.take_zero]
    rw [hreg]
  · have ha : a.isDigit = true := hfd a (by simp)
    have hb : b.isDigit = true := hfd b (by simp)
    rw [matchAmount]
    rw [show tryIntLen 3 ([a, b] ++ (dotsJoin cs ++ ',' :: t1 :: t2 :: rest)) = none by
      rw [tryIntLen, if_neg]
      simp only [List.cons_append, List.nil_append, hXeq, List.take_succ_cons, List.all_cons, hh0]
      simp]
    rw [tryIntLen, if_pos (by simp [ha, hb])]
    simp only [List.cons_append, List.nil_append, List.drop_succ_cons, List.drop_zero,
      List.take_succ_cons, List.take_zero]
    rw [hreg]
  · have ha : a.isDigit = true := hfd a (by simp)
    have hb : b.isDigit = true := hfd b (by simp)
    have hc : c.isDigit = true := hfd c (by simp)
    rw [matchAmount]
    rw [tryIntLen, if_pos (by simp [ha, hb, hc])]
    simp only [List.cons_append, List.nil_append, List.drop_succ_cons, List.drop_zero,
      List.take_succ_cons, List.take_zero]
    rw [hreg]
  · simp at hf3

theorem commaGroup_decomp :
    ∀ (N : ℕ) (ds : List Char), ds.length ≤ N → ds ≠ [] → (∀ c ∈ ds, c.isDigit = true) →
    ∃ f cs, (List.map sepSwap (commaGroup ds)).reverse = f ++ dotsJoin cs ∧
      1 ≤ f.length ∧ f.length ≤ 3 ∧ (∀ c ∈ f, c.isDigit = true) ∧
      (∀ ch ∈ cs, ch.length = 3 ∧ ∀ c ∈ ch, c.isDigit = true) ∧
      f ++ cs.flatten = ds.reverse := by
  intro N
  induction N with
  | zero =>
    intro ds hlen hne _
    exact absurd (List.length_eq_zero.mp (Nat.le_zero.mp hlen)) hne
  | succ N ih =>
    intro ds hlen hne hdig
    cases ds with
    | nil => exact absurd rfl hne
    | cons a t1 =>
    cases t1 with
    | nil =>
      have ha := sepSwap_of_isDigit (hdig a (by simp))
      refine ⟨[a], [], by simp [commaGroup, dotsJoin, ha], by simp, by simp, ?_, by simp, by simp⟩
      intro x hx
      simp at hx
      exact hdig x (by simp [hx])
    | cons b t2 =>
    cases t2 with
    | nil =>
      have ha := sepSwap_of_isDigit (hdig a (by simp))
      have hb := sepSwap_of_isDigit (hdig b (by simp))
      refine ⟨[b, a], [], by simp [commaGroup, dotsJoin, ha, hb], by simp, by simp, ?_,
        by simp, by simp⟩
      intro x hx
      simp at hx
      rcases hx with hx | hx <;> exact hdig x (by simp [hx])
    | cons c t3 =>
    cases t3 with
    | nil =>
      have ha := sepSwap_of_isDigit (hdig a (by simp))
      have hb := sepSwap_of_isDigit (hdig b (by simp))
      have hc := sepSwap_of_isDigit (hdig c (by simp))
      refine ⟨[c, b, a], [], by simp [commaGroup, dotsJoin, ha, hb, hc], by simp, by simp, ?_,
        by simp, by simp⟩
      intro x hx
      simp at hx
      rcases hx with hx | hx | hx <;> exact hdig x (by simp [hx])
    | cons d es =>
      have ha := sepSwap_of_isDigit (hdig a (by simp))
      have hb := sepSwap_of_isDigit (hdig b (by simp))
      have hc := sepSwap_of_isDigit (hdig c (by simp))
      obtain ⟨f, cs, heq, hf1, hf3, hfd, hcs, hflat⟩ :=
        ih (d :: es) (by simp at hlen ⊢; omega) (by simp)
          (fun x hx => hdig x (by simp at hx ⊢; tauto))
      refine ⟨f, cs ++ [[c, b, a]], ?_, hf1, hf3, hfd, ?_, ?_⟩
      · rw [commaGroup]
        simp only [List.map_cons, ha, hb, hc, List.reverse_cons,
          show sepSwap ',' = '.' from rfl]
        rw [heq, dotsJoin_append_single]
        simp [List.append_assoc]
      · intro ch hch
        rcases List.mem_append.mp hch with hch | hch
        · exact hcs ch hch
        · simp at hch
          subst hch
          refine ⟨rfl, fun x hx => ?_⟩
          simp at hx
          rcases hx with hx | hx | hx <;> exact hdig x (by simp [hx])
      · rw [List.flatten_append]
        simp only [List.flatten_cons, List.flatten_nil, List.append_nil]
        rw [← List.append_assoc, hflat]
        simp [List.append_assoc]

theorem pyRound_intCast (z : ℤ) : pyRound ((z : ℚ)) = z := by
  rw [pyRound]
  norm_num [Rat.num_intCast, Rat.den_intCast, Int.fdiv_one]

theorem formatComma2f_div100 (n : ℕ) :
    formatComma2f ((n : ℚ) / 100) =
      (commaGroup (intCharsLE (n / 100))).reverse ++ '.' :: twoDigits n := by
  have h1 : ((n : ℚ) / 100) * 100 = ((n : ℤ) : ℚ) := by
    push_cast
    ring
  rw [formatComma2f, h1, pyRound_intCast]
  rw [if_neg (by omega)]
  simp [Int.natAbs_ofNat]

theorem intCharsLE_ne_nil (n : ℕ) : intCharsLE n ≠ [] := by
  rw [intCharsLE]
  split
  · simp
  · simpa using digitsRec_ne_nil (by assumption)

theorem stripRS_id {l : List Char} (h : 'R' ∉ l) : stripRS l = l := by
  induction l with
  | nil => rfl
  | cons c rest ih =>
    have hc : c ≠ 'R' := fun hh => h (by simp [hh])
    have hrest : 'R' ∉ rest := fun hh => h (by simp [hh])
    rw [stripRS.eq_def]
    split
    · next a b heq =>
      injection heq with h1 h2
      exact absurd h1 hc
    · next a c' rest' hno heq =>
      injection heq with h1 h2
      subst h1
      subst h2
      rw [ih hrest]
    · next a heq => simp at heq

theorem mem_dotsJoin {c : Char} {cs : List (List Char)} (h : c ∈ dotsJoin cs) :
    c = '.' ∨ ∃ ch ∈ cs, c ∈ ch := by
  rw [dotsJoin, List.mem_flatten] at h
  obtain ⟨l, hl, hc⟩ := h
  obtain ⟨ch, hch, rfl⟩ := List.mem_map.mp hl
  rcases List.mem_cons.mp hc with rfl | hc
  · exact Or.inl rfl
  · exact Or.inr ⟨ch, hch, hc⟩

theorem filter_not_dot_of_digits {f : List Char} (hf : ∀ c ∈ f, c.isDigit = true) :
    f.filter (fun c => !(c == '.')) = f := by
  rw [List.filter_eq_self]
  intro c hc
  simpa using isDigit_ne (hf c hc) (by decide)

theorem filter_not_dot_dotsJoin {cs : List (List Char)}
    (hcs : ∀ ch ∈ cs, ch.length = 3 ∧ ∀ c ∈ ch, c.isDigit = true) :
    (dotsJoin cs).filter (fun c => !(c == '.')) = cs.flatten := by
  induction cs with
  | nil => rfl
  | cons ch cs ih =>
    have hch := (hcs ch (by simp)).2
    rw [show dotsJoin (ch :: cs) = '.' :: ch ++ dotsJoin cs by simp [dotsJoin]]
    rw [List.cons_append, List.filter_cons]
    simp only [show (!('.' == '.')) = false by decide, if_false, Bool.false_eq_true]
    rw [List.filter_append, filter_not_dot_of_digits hch,
      ih fun x hx => hcs x (by simp [hx])]
    simp [List.flatten_cons]

theorem map_comma_dot_of_no_comma {f : List Char} (hf : ∀ c ∈ f, c ≠ ',') :
    f.map (fun c => if c = ',' then '.' else c) = f := by
  induction f with
  | nil => rfl
  | cons c rest ih =>
    rw [List.map_cons, if_neg (hf c (by simp)), ih fun x hx => hf x (by simp [hx])]

/-- The round-trip: parsing the formatted text of a non-negative value
with at most two decimal digits recovers the value exactly. -/
theorem roundtrip_div100 (n : ℕ) :
    _parse_brl_price_text_to_float (_fmt_brl ((n : ℚ) / 100)) = some ((n : ℚ) / 100) := by
  have ht1 : (digitChar (n / 10 % 10)).isDigit = true := (digitChar_props (by omega)).1
  have ht2 : (digitChar (n % 10)).isDigit = true := (digitChar_props (by omega)).1
  have hI := intCharsLE_ne_nil (n / 100)
  have hIdig : ∀ c ∈ intCharsLE (n / 100), c.isDigit = true :=
    fun c hc => intCharsLE_isDigit hc
  obtain ⟨f, cs, heq, hf1, hf3, hfd, hcs, hflat⟩ :=
    commaGroup_decomp (intCharsLE (n / 100)).length (intCharsLE (n / 100)) le_rfl hI hIdig
  have hfmt : (_fmt_brl ((n : ℚ) / 100)).data =
      'R' :: '$' :: ' ' ::
        (f ++ (dotsJoin cs ++ ',' :: digitChar (n / 10 % 10) :: digitChar (n % 10) :: [])) := by
    rw [_fmt_brl, formatComma2f_div100]
    show 'R' :: '$' :: ' ' :: List.map sepSwap
        ((commaGroup (intCharsLE (n / 100))).reverse ++ '.' :: twoDigits n) = _
    rw [List.map_append, List.map_reverse, heq]
    simp only [twoDigits, List.map_cons, List.map_nil,
      show sepSwap '.' = ',' from rfl, sepSwap_of_isDigit ht1, sepSwap_of_isDigit ht2,
      List.append_assoc]
  have hbody : ∀ c ∈ f ++ (dotsJoin cs ++
      ',' :: digitChar (n / 10 % 10) :: digitChar (n % 10) :: []),
      c.isDigit = true ∨ c = '.' ∨ c = ',' := by
    intro c hc
    rcases List.mem_append.mp hc with hc | hc
    · exact Or.inl (hfd c hc)
    · rcases List.mem_append.mp hc with hc | hc
      · rcases mem_dotsJoin hc with hc | ⟨ch, hch, hc⟩
        · exact Or.inr (Or.inl hc)
        · exact Or.inl ((hcs ch hch).2 c hc)
      · rcases List.mem_cons.mp hc with rfl | hc
        · exact Or.inr (Or.inr rfl)
        · rcases List.mem_cons.mp hc with rfl | hc
          · exact Or.inl ht1
          · rcases List.mem_cons.mp hc with rfl | hc
            · exact Or.inl ht2
            · simp at hc
  have hnospace : ∀ c ∈ f ++ (dotsJoin cs ++
      ',' :: digitChar (n / 10 % 10) :: digitChar (n % 10) :: []), isPySpaceB c = false := by
    intro c hc
    rcases hbody c hc with hc' | hc' | hc'
    · exact isPySpaceB_of_isDigit hc'
    · subst hc'; rfl
    · subst hc'; rfl
  have hnoR : 'R' ∉ f ++ (dotsJoin cs ++
      ',' :: digitChar (n / 10 % 10) :: digitChar (n % 10) :: []) := by
    intro hc
    rcases hbody 'R' hc with hc' | hc' | hc'
    · rw [show ('R').isDigit = false from rfl] at hc'
      cases hc'
    · cases hc'
    · cases hc'
  obtain ⟨fh, ftl, rfl⟩ : ∃ fh ftl, f = fh :: ftl := by
    cases f with
    | nil => simp at hf1
    | cons fh ftl => exact ⟨fh, ftl, rfl⟩
  have hfh : fh.isDigit = true := hfd fh (by simp)
  have hdropw : List.dropWhile isPySpaceB (' ' :: ((fh :: ftl) ++ (dotsJoin cs ++
      ',' :: digitChar (n / 10 % 10) :: digitChar (n % 10) :: []))) =
      (fh :: ftl) ++ (dotsJoin cs ++
        ',' :: digitChar (n / 10 % 10) :: digitChar (n % 10) :: []) := by
    rw [List.dropWhile_cons]
    simp only [show isPySpaceB ' ' = true from rfl, if_true, List.cons_append,
      List.dropWhile_cons, isPySpaceB_of_isDigit hfh]
    simp
  have hamount := matchAmount_canonical hf1 hf3 hfd hcs ht1 ht2 []
  have hsearch : brSearchList ((_fmt_brl ((n : ℚ) / 100)).data) =
      some ('R' :: '$' :: ' ' :: ((fh :: ftl) ++ (dotsJoin cs ++
        [',', digitChar (n / 10 % 10), digitChar (n % 10)]))) := by
    rw [hfmt, brSearchList]
    rw [show matchBRAt ('R' :: '$' :: ' ' :: ((fh :: ftl) ++ (dotsJoin cs ++
        ',' :: digitChar (n / 10 % 10) :: digitChar (n % 10) :: []))) =
        (if 'R' = 'R' || 'R' = 'r' then
          match matchAmount ((' ' :: ((fh :: ftl) ++ (dotsJoin cs ++
            ',' :: digitChar (n / 10 % 10) :: digitChar (n % 10) :: []))).dropWhile isPySpaceB)
          with
          | some (m, _) => some ('R' :: '$' :: ((' ' :: ((fh :: ftl) ++ (dotsJoin cs ++
              ',' :: digitChar (n / 10 % 10) :: digitChar (n % 10) :: []))).takeWhile isPySpaceB
              ++ m))
          | none => none
        else none) from rfl]
    rw [if_pos (by decide)]
    rw [hdropw, hamount]
    have htakew : List.takeWhile isPySpaceB (' ' :: ((fh :: ftl) ++ (dotsJoin cs ++
        ',' :: digitChar (n / 10 % 10) :: digitChar (n % 10) :: []))) = [' '] := by
      rw [List.takeWhile_cons]
      simp only [show isPySpaceB ' ' = true from rfl, if_true, List.cons_append,
        List.takeWhile_cons, isPySpaceB_of_isDigit hfh]
      simp
    rw [htakew]
    rfl
  have hneq : _fmt_brl ((n : ℚ) / 100) ≠ "" := by
    intro hh
    have hdata := congrArg String.data hh
    rw [hfmt] at hdata
    exact absurd hdata (by simp [show ("" : String).data = [] from rfl])
  rw [_parse_brl_price_text_to_float, if_neg hneq, BR_PRICE_search, hsearch]
  simp only [Option.map_some']
  have hstrip : stripRS ('R' :: '$' :: ' ' :: ((fh :: ftl) ++ (dotsJoin cs ++
      [',', digitChar (n / 10 % 10), digitChar (n % 10)]))) =
      ' ' :: ((fh :: ftl) ++ (dotsJoin cs ++
        [',', digitChar (n / 10 % 10), digitChar (n % 10)])) := by
    rw [show stripRS ('R' :: '$' :: ' ' :: ((fh :: ftl) ++ (dotsJoin cs ++
        [',', digitChar (n / 10 % 10), digitChar (n % 10)]))) =
        stripRS (' ' :: ((fh :: ftl) ++ (dotsJoin cs ++
          [',', digitChar (n / 10 % 10), digitChar (n % 10)]))) from rfl]
    apply stripRS_id
    intro hc
    rcases List.mem_cons.mp hc with hc | hc
    · cases hc
    · exact hnoR hc
  show pyFloatCharsAux
      (List.map (fun c => if c = ',' then '.' else c)
        (List.filter (fun c => !(c == '.'))
          (pyStripL (stripRS ('R' :: '$' :: ' ' :: ((fh :: ftl) ++ (dotsJoin cs ++
            [',', digitChar (n / 10 % 10), digitChar (n % 10)]))))))) =
      some ((n : ℚ) / 100)
  rw [hstrip, pyStripL_cons_space hnospace]
  rw [List.filter_append, List.filter_append, filter_not_dot_of_digits hfd,
    filter_not_dot_dotsJoin hcs, List.filter_cons]
  simp only [show (!(',' == '.')) = true from rfl, if_true]
  rw [show List.filter (fun c => !(c == '.'))
      [digitChar (n / 10 % 10), digitChar (n % 10)] =
      [digitChar (n / 10 % 10), digitChar (n % 10)] from
    filter_not_dot_of_digits (by
      intro c hc
      rcases List.mem_cons.mp hc with rfl | hc
      · exact ht1
      · simp at hc; subst hc; exact ht2)]
  rw [List.map_append, List.map_append,
    map_comma_dot_of_no_comma (fun c hc => isDigit_ne (hfd c hc) (by decide)),
    map_comma_dot_of_no_comma (fun c hc => by
      obtain ⟨ch, hch, hc'⟩ := List.mem_flatten.mp hc
      exact isDigit_ne ((hcs ch hch).2 c hc') (by decide)),
    List.map_cons, if_pos rfl,
    map_comma_dot_of_no_comma (fun c hc => by
      rcases List.mem_cons.mp hc with rfl | hc
      · exact isDigit_ne ht1 (by decide)
      · simp at hc; subst hc; exact isDigit_ne ht2 (by decide))]
  rw [← List.append_assoc, hflat]
  rw [pyFloatCharsAux_canonical
    (fun c hc => intCharsLE_isDigit (List.mem_reverse.mp hc))
    (by simpa using hI) ht1 ht2]
  congr 1
  rw [ofChars_intCharsLE]
  rw [(digitChar_props (show n / 10 % 10 < 10 by omega)).2.1,
    (digitChar_props (show n % 10 < 10 by omega)).2.1]
  rw [show 10 * (n / 10 % 10) + n % 10 = n % 100 by omega]
  have h4 : (100 * (n / 100) + n % 100 : ℕ) = n := Nat.div_add_mod n 100
  field_simp
  rw [show ((n : ℚ)) = ((100 * (n / 100) + n % 100 : ℕ) : ℚ) by rw [h4]]
  push_cast
  ring

/-! ### Auxiliary lemmas: shape of the price-strategy results -/

theorem stratA_shape (d : Doc) (r : PriceOut) (h : stratA d = some r) :
    ∃ v cur h0, r = ⟨some (_fmt_brl v), some v, some cur, some h0⟩ := by
  unfold stratA at h
  repeat' split at h
  all_goals first
    | (injection h with h'
       exact ⟨_, _, _, h'.symm⟩)
    | cases h

theorem stratBParse_shape (raw : String) (r : PriceOut) (h : stratBParse raw = some r) :
    ∃ v cur h0, r = ⟨some (_fmt_brl v), some v, some cur, some h0⟩ := by
  unfold stratBParse at h
  repeat' split at h
  all_goals first
    | (injection h with h'
       exact ⟨_, _, _, h'.symm⟩)
    | cases h

theorem stratB_shape (d : Doc) (r : PriceOut) (h : stratB d = some r) :
    ∃ v cur h0, r = ⟨some (_fmt_brl v), some v, some cur, some h0⟩ := by
  unfold stratB at h
  split at h
  · exact stratBParse_shape _ r h
  · cases h

theorem stratCOne_shape (d : Doc) (p c h0 : String) (r : PriceOut)
    (h : stratCOne d p c h0 = some r) :
    ∃ v cur hh : _, r = ⟨some (_fmt_brl v), some v, some cur, some hh⟩ := by
  unfold stratCOne at h
  repeat' split at h
  all_goals first
    | (injection h with h'
       exact ⟨_, _, _, h'.symm⟩)
    | cases h

theorem stratC_shape (d : Doc) (r : PriceOut) (h : stratC d = some r) :
    ∃ v cur h0, r = ⟨some (_fmt_brl v), some v, some cur, some h0⟩ := by
  unfold stratC at h
  split at h
  · next hone => exact stratCOne_shape d _ _ _ r (by rw [hone]; injection h with h'; rw [h'])
  · exact stratCOne_shape d _ _ _ r h

theorem stratD_shape (d : Doc) (r : PriceOut) (h : stratD d = some r) :
    ∃ v cur h0, r = ⟨some (_fmt_brl v), some v, some cur, some h0⟩ := by
  unfold stratD at h
  repeat' split at h
  all_goals first
    | (injection h with h'
       exact ⟨_, _, _, h'.symm⟩)
    | cases h

theorem stratBCD_text_map (d : Doc) :
    (stratBCD d).price_text = ((stratBCD d).price_value).map _fmt_brl := by
  rw [stratBCD]
  cases hB : stratB d with
  | some r =>
    obtain ⟨v, cur, h0, rfl⟩ := stratB_shape d r hB
    rfl
  | none =>
    cases hC : stratC d with
    | some r =>
      obtain ⟨v, cur, h0, rfl⟩ := stratC_shape d r hC
      rfl
    | none =>
      cases hD : stratD d with
      | some r =>
        obtain ⟨v, cur, h0, rfl⟩ := stratD_shape d r hD
        rfl
      | none => rfl

/-- Every price strategy that returns at all returns the canonical
re-formatted text paired with the parsed value. -/
theorem extract_text_map (d : Doc) :
    (_extract_price_and_currency d).price_text =
      ((_extract_price_and_currency d).price_value).map _fmt_brl := by
  rw [_extract_price_and_currency]
  cases hA : stratA d with
  | some r =>
    obtain ⟨v, cur, h0, rfl⟩ := stratA_shape d r hA
    rfl
  | none => exact stratBCD_text_map d

/-! ### Auxiliary lemmas: JSON-LD block decoding and the name cascade -/

theorem foldl_append_flatMap {α β : Type} (g : α → List β) (l : List α) (init : List β) :
    l.foldl (fun acc x => acc ++ g x) init = init ++ l.flatMap g := by
  induction l generalizing init with
  | nil => simp
  | cons x l ih =>
    rw [List.foldl_cons, ih, List.flatMap_cons, List.append_assoc]

/-- The first JSON-LD block with `@type == "Product"` and a truthy
`"name"`, and its name value — the entry the scan of line 62 stops at. -/
def firstProductName (blocks : List (List (String × Json))) : Option Json :=
  (blocks.find? fun o =>
      ((jget o "@type").any fun j => j.eqStr "Product") &&
        ((jget o "name").any Json.truthy)).bind
    fun o => jget o "name"

theorem jsonld_first_name {blocks : List (List (String × Json))} {s : String}
    (h : firstProductName blocks = some (Json.str s)) :
    _extract_name_from_jsonld blocks =
      .ok (if pyStrip s = "" then none else some (pyStrip s)) := by
  induction blocks with
  | nil => simp [firstProductName] at h
  | cons obj rest ih =>
    rw [firstProductName, List.find?_cons] at h
    rw [_extract_name_from_jsonld]
    by_cases hp : (((jget obj "@type").any fun j => j.eqStr "Product") &&
        ((jget obj "name").any Json.truthy)) = true
    · rw [hp] at h
      simp only [Option.some_bind] at h
      rw [if_pos ⟨(Bool.and_eq_true_iff.mp hp).1, (Bool.and_eq_true_iff.mp hp).2⟩, h]
    · rw [Bool.eq_false_iff.mpr hp] at h
      rw [if_neg fun hc => hp (Bool.and_eq_true_iff.mpr hc)]
      exact ih h

/-! ### Concrete documents used to settle the claims -/

/-- A paragraph element holding one text string. -/
def textElem (s : String) : Elem := ⟨"p", [], some s, [s]⟩

/-- A `meta` element with a `property` and a `content` attribute. -/
def metaElem (p c : String) : Elem := ⟨"meta", [("property", p), ("content", c)], none, []⟩

/-- A JSON-LD `script` element. -/
def ldScriptElem (txt : String) : Elem :=
  ⟨"script", [("type", "application/ld+json")], some txt, [txt]⟩

/-- A `title` element. -/
def titleElem (s : String) : Elem := ⟨"title", [], some s, [s]⟩

/-- An `h1` element. -/
def h1Elem (s : String) : Elem := ⟨"h1", [], some s, [s]⟩

/-- A document made of the given elements, whose visible text is theirs. -/
def docOf (es : List Elem) : Doc := ⟨es, es.flatMap Elem.texts⟩

def docMetaUSD : Doc :=
  docOf [metaElem "product:price:amount" "10", metaElem "product:price:currency" "USD"]

def docMetaEUR : Doc :=
  docOf [metaElem "product:price:amount" "10", metaElem "product:price:currency" "EUR"]

def docBadName : Doc := docOf [ldScriptElem "\x7b\"@type\": \"Product\", \"name\": 123\x7d"]

def docTitleWidget : Doc := docOf [titleElem "Widget - Acme | Store"]

def docMeta12990 : Doc := docOf [metaElem "product:price:amount" "129.90"]

def docMeta12346 : Doc := docOf [metaElem "product:price:amount" "12.346"]

def docMetaComma : Doc := docOf [metaElem "product:price:amount" "10,5"]

def docMetaBad : Doc :=
  docOf [metaElem "product:price:amount" "abc", textElem "R$ 3,50"]

def docTwoPrices : Doc := docOf [textElem "R$ 2,00 e R$ 1.234,56"]

def docOnePrice : Doc := docOf [textElem "precio R$ 1.234,56 hoje"]

def docTwoBlocks : Doc :=
  docOf [ldScriptElem "\x7b\"@type\": \"Product\", \"name\": \" \"\x7d",
    ldScriptElem "\x7b\"@type\": \"Product\", \"name\": \"Real Name\"\x7d", h1Elem "Other"]

def docJsonH1 : Doc :=
  docOf [ldScriptElem "\x7b\"@type\": \"Product\", \"name\": \" Foo \"\x7d", h1Elem "Bar"]

def docTinyPrice : Doc := docOf [textElem "por R$ 0.001,00 apenas"]

/-! ### The claims -/

/-- C1: the spec says `parse_product` returns an ExtractionResult carrying
all five optional fields plus the source URL.  The code computes all five
but returns only the triple `(url, name, price_value)` (despite its own
`-> dict` annotation): two documents that differ only in the extracted
currency produce identical `parse_product` results, so the returned value
carries neither `price_text`, nor `currency`, nor `strategy_hint`. -/
theorem c1_parse_product_returns_triple :
    parse_product docMetaUSD (some "u") = .ok (some "u", none, some 10) ∧
    parse_product docMetaEUR (some "u") = .ok (some "u", none, some 10) ∧
    parse_product docMetaUSD (some "u") = parse_product docMetaEUR (some "u") ∧
    (_extract_price_and_currency docMetaUSD).currency = some "USD" ∧
    (_extract_price_and_currency docMetaEUR).currency = some "EUR" ∧
    (_extract_price_and_currency docMetaUSD).price_text = some "R$ 10,00" ∧
    (_extract_price_and_currency docMetaUSD).hint =
      some "meta[property=\"product:price:amount\"]" := by
  with_unfolding_all exact ⟨rfl, rfl, rfl, rfl, rfl, rfl, rfl⟩

/-- C2: the spec says the name and price extractors never raise.  A
JSON-LD Product block whose `"name"` is a (truthy) non-string — here the
number `123` — makes `_extract_name_from_jsonld` evaluate
`obj["name"].strip()` on an `int`, raising `AttributeError`, which
propagates out of `_extract_name` and `parse_product`. -/
theorem c2_nonstring_name_raises :
    _extract_name docBadName = .error .attributeError ∧
    parse_product docBadName (some "u") = .error .attributeError := by
  with_unfolding_all exact ⟨rfl, rfl⟩

/-- C3 counterexample: on the title `"Widget - Acme | Store"` with no
higher-priority source the code splits at the first separator in the
priority list that occurs anywhere — `" | "` — and returns
`"Widget - Acme"`, not `"Widget"`. -/
theorem c3_counterexample :
    _extract_name docTitleWidget = .ok (some "Widget - Acme") ∧
    ¬_extract_name docTitleWidget = .ok (some "Widget") := by
  refine ⟨by with_unfolding_all rfl, fun h => ?_⟩
  have h2 : Except.ok (ε := PyErr) (some "Widget - Acme") = .ok (some "Widget") := by
    rw [← h]
    with_unfolding_all rfl
  injection h2 with h3
  injection h3 with h4
  exact absurd h4 (by decide)

/-- C3 (amended): for a document whose title is `"Widget - Acme | Store"`
and which has no higher-priority name source, name extraction returns
`"Widget - Acme"`: the separator priority list `" | "`, `" – "`, `" - "`
is scanned in that fixed order and the title is split at the first listed
separator that occurs anywhere in it, not at the positionally first
separator. -/
theorem c3_amended (d : Doc) (t : Elem)
    (hjson : _extract_name_from_jsonld (_json_ld_blocks d) = .ok none)
    (hog : ogTitleStep d = none)
    (hh1 : h1Step d = none)
    (ht : findTag d "title" = some t)
    (hs : t.string = some "Widget - Acme | Store") :
    _extract_name d = .ok (some "Widget - Acme") := by
  have htitle : titleStep d = some "Widget - Acme" := by
    rw [titleStep, ht]
    show (match t.string with
      | some s => if s = "" then none else some (titleSplit (pyStrip s))
      | none => none) = some "Widget - Acme"
    rw [hs]
    with_unfolding_all rfl
  rw [_extract_name, hjson]
  show (if optTruthy none = true then Except.ok none else
    match ogTitleStep d with
    | some v => .ok (some v)
    | none =>
      match h1Step d with
      | some t0 => .ok (some t0)
      | none =>
        match titleStep d with
        | some r => .ok (some r)
        | none => .ok none) = .ok (some "Widget - Acme")
  rw [if_neg (by decide), hog, hh1, htitle]

/-- C3 witness: the amended claim at the concrete title document. -/
theorem c3_witness : _extract_name docTitleWidget = .ok (some "Widget - Acme") :=
  c3_amended docTitleWidget (titleElem "Widget - Acme | Store")
    (by with_unfolding_all rfl) (by with_unfolding_all rfl) (by with_unfolding_all rfl)
    (by with_unfolding_all rfl) (by with_unfolding_all rfl)

/-- C4 counterexample: on a `product:price:amount` content with three
decimal digits (`"12.346"`), the code keeps `price_value = 12.346` but
formats `price_text = "R$ 12,35"`, whose parse is `12.35`: the exact
round-trip `price_value == parseBRLPrice(price_text)` fails. -/
theorem c4_counterexample :
    (_extract_price_and_currency docMeta12346).price_value = some ((6173 : ℚ) / 500) ∧
    (_extract_price_and_currency docMeta12346).price_text = some "R$ 12,35" ∧
    _parse_brl_price_text_to_float "R$ 12,35" = some ((247 : ℚ) / 20) ∧
    ((247 : ℚ) / 20) ≠ ((6173 : ℚ) / 500) := by
  with_unfolding_all exact ⟨rfl, rfl, rfl, by decide⟩

/-- C4 (amended): `price_value` is non-null iff `price_text` is non-null;
when both are present, `price_text` is the canonical
`formatBRLPrice(price_value)`, and `price_value == parseBRLPrice(price_text)`
holds whenever `price_value` is a non-negative value with at most two
decimal digits. -/
theorem c4_amended (d : Doc) :
    ((_extract_price_and_currency d).price_value.isSome ↔
      (_extract_price_and_currency d).price_text.isSome) ∧
    (∀ v t, (_extract_price_and_currency d).price_value = some v →
      (_extract_price_and_currency d).price_text = some t → t = _fmt_brl v) ∧
    (∀ (n : ℕ) t, (_extract_price_and_currency d).price_value = some ((n : ℚ) / 100) →
      (_extract_price_and_currency d).price_text = some t →
      _parse_brl_price_text_to_float t = some ((n : ℚ) / 100)) := by
  have hmap := extract_text_map d
  refine ⟨?_, ?_, ?_⟩
  · rw [hmap]
    cases (_extract_price_and_currency d).price_value <;> simp
  · intro v t hv ht
    rw [hmap, hv] at ht
    simpa using ht.symm
  · intro n t hv ht
    rw [hmap, hv] at ht
    rw [show t = _fmt_brl ((n : ℚ) / 100) by simpa using ht.symm]
    exact roundtrip_div100 n

/-- C4 witness: the amended claim at the `content="129.90"` document. -/
theorem c4_witness :
    _parse_brl_price_text_to_float "R$ 129,90" = some ((12990 : ℚ) / 100) :=
  (c4_amended docMeta12990).2.2 12990 "R$ 129,90"
    (by with_unfolding_all rfl) (by with_unfolding_all rfl)

/-- C5 counterexample: `-1.23` has exactly two decimal digits, but
`formatBRLPrice` renders `"R$ -1,23"`, which the price pattern (requiring
a digit right after the optional whitespace) cannot match, so the parse
returns absent instead of `-1.23`. -/
theorem c5_counterexample :
    _parse_brl_price_text_to_float (_fmt_brl ((-123 : ℚ) / 100)) = none ∧
    ¬_parse_brl_price_text_to_float (_fmt_brl ((-123 : ℚ) / 100)) =
      some ((-123 : ℚ) / 100) := by
  constructor
  · with_unfolding_all rfl
  · intro h
    have h2 : (none : Option ℚ) = some ((-123 : ℚ) / 100) := by
      rw [← h]
      with_unfolding_all rfl
    cases h2

/-- C5 (amended): for every non-negative value with at most two decimal
digits — every `n / 100` with `n` a natural number —
`parseBRLPrice(formatBRLPrice(v)) == v` exactly. -/
theorem c5_amended (n : ℕ) :
    _parse_brl_price_text_to_float (_fmt_brl ((n : ℚ) / 100)) = some ((n : ℚ) / 100) :=
  roundtrip_div100 n

/-- C6: a `product:price:amount` meta whose content parses as a float
(comma as decimal point) makes strategy A return that value with
currency `"BRL"` unless a `product:price:currency` meta supplies a
non-empty trimmed override; `content="129.90"` with no currency meta
yields `129.90`/`"BRL"`; and a numeric-parse failure falls through to the
remaining strategies instead of aborting. -/
theorem c6_meta_price_amount :
    (∀ (d : Doc) (m : Elem) (c : String),
      findMeta d "product:price:amount" = some m →
      attrOf m "content" = some c → c ≠ "" →
      (∀ v : ℚ, pyFloat? (commaToDot c) = some v →
        _extract_price_and_currency d =
          ⟨some (_fmt_brl v), some v, some (currA d),
            some "meta[property=\"product:price:amount\"]"⟩) ∧
      (pyFloat? (commaToDot c) = none → _extract_price_and_currency d = stratBCD d)) ∧
    (∀ d : Doc, findMeta d "product:price:currency" = none → currA d = "BRL") ∧
    (∀ (d : Doc) (mc : Elem) (c2 : String),
      findMeta d "product:price:currency" = some mc → attrOf mc "content" = some c2 →
      c2 ≠ "" → pyStrip c2 ≠ "" → currA d = pyStrip c2) ∧
    _extract_price_and_currency docMeta12990 =
      ⟨some "R$ 129,90", some ((1299 : ℚ) / 10), some "BRL",
        some "meta[property=\"product:price:amount\"]"⟩ := by
  refine ⟨?_, ?_, ?_, ?_⟩
  · intro d m c hm hc hcne
    constructor
    · intro v hv
      have hA : stratA d = some ⟨some (_fmt_brl v), some v, some (currA d),
          some "meta[property=\"product:price:amount\"]"⟩ := by
        simp only [stratA, hm, hc, if_neg hcne, hv]
      rw [_extract_price_and_currency, hA]
    · intro hv
      have hA : stratA d = none := by
        simp only [stratA, hm, hc, if_neg hcne, hv]
      rw [_extract_price_and_currency, hA]
  · intro d h
    rw [currA, h]
  · intro d mc c2 h1 h2 h3 h4
    simp only [currA, h1, h2, if_neg h3, if_neg h4]
  · with_unfolding_all rfl

/-- C6 witness: strategy A at a comma-decimal content, and the
fall-through at a non-numeric content. -/
theorem c6_witness :
    _extract_price_and_currency docMetaComma =
      ⟨some (_fmt_brl ((21 : ℚ) / 2)), some ((21 : ℚ) / 2), some (currA docMetaComma),
        some "meta[property=\"product:price:amount\"]"⟩ ∧
    _extract_price_and_currency docMetaBad = stratBCD docMetaBad := by
  constructor
  · exact (c6_meta_price_amount.1 docMetaComma (metaElem "product:price:amount" "10,5") "10,5"
      (by with_unfolding_all rfl) (by with_unfolding_all rfl) (by decide)).1
      ((21 : ℚ) / 2) (by with_unfolding_all rfl)
  · exact (c6_meta_price_amount.1 docMetaBad (metaElem "product:price:amount" "abc") "abc"
      (by with_unfolding_all rfl) (by with_unfolding_all rfl) (by decide)).2
      (by with_unfolding_all rfl)

/-- C7 counterexample: a document with no structured price metadata whose
visible text contains `"R$ 1.234,56"` — but preceded by `"R$ 2,00"` —
yields the *first* pattern match, `price_value = 2`, not `1234.56`. -/
theorem c7_counterexample :
    strContains (pageText docTwoPrices) "R$ 1.234,56" = true ∧
    findMeta docTwoPrices "product:price:amount" = none ∧
    selectItempropPrice docTwoPrices = none ∧
    findMeta docTwoPrices "og:price:amount" = none ∧
    findMeta docTwoPrices "product:sale_price:amount" = none ∧
    _extract_price_and_currency docTwoPrices =
      ⟨some "R$ 2,00", some 2, some "BRL", some "regex-dom"⟩ ∧
    (2 : ℚ) ≠ (30864 : ℚ) / 25 := by
  with_unfolding_all exact ⟨rfl, rfl, rfl, rfl, rfl, rfl, by decide⟩

/-- C7 (amended): for every document with no structured price metadata
whose visible text's *first* match of the price pattern is
`"R$ 1.234,56"`, the final visible-text strategy returns
`price_value = 1234.56`, `price_text = "R$ 1.234,56"`, currency `"BRL"`. -/
theorem c7_amended (d : Doc)
    (hA : findMeta d "product:price:amount" = none)
    (hB : selectItempropPrice d = none)
    (hC1 : findMeta d "og:price:amount" = none)
    (hC2 : findMeta d "product:sale_price:amount" = none)
    (hD : BR_PRICE_search (pageText d) = some "R$ 1.234,56") :
    _extract_price_and_currency d =
      ⟨some "R$ 1.234,56", some ((30864 : ℚ) / 25), some "BRL", some "regex-dom"⟩ := by
  have hAnone : stratA d = none := by simp only [stratA, hA]
  have hBnone : stratB d = none := by simp only [stratB, hB]
  have hCnone : stratC d = none := by
    simp only [stratC, stratCOne, hC1, hC2]
  have hptne : pageText d ≠ "" := by
    intro hh
    rw [hh] at hD
    rw [show BR_PRICE_search "" = none from rfl] at hD
    cases hD
  have hparse : _parse_brl_price_text_to_float (pageText d) = some ((30864 : ℚ) / 25) := by
    rw [_parse_brl_price_text_to_float, if_neg hptne, hD]
    with_unfolding_all rfl
  have hDsome : stratD d =
      some ⟨some "R$ 1.234,56", some ((30864 : ℚ) / 25), some "BRL", some "regex-dom"⟩ := by
    simp only [stratD, hparse]
    rw [show _fmt_brl ((30864 : ℚ) / 25) = "R$ 1.234,56" by with_unfolding_all rfl]
  rw [_extract_price_and_currency, hAnone, stratBCD, hBnone, hCnone, hDsome]

/-- C7 witness: the amended claim at a document whose only price text is
`"R$ 1.234,56"`. -/
theorem c7_witness :
    _extract_price_and_currency docOnePrice =
      ⟨some "R$ 1.234,56", some ((30864 : ℚ) / 25), some "BRL", some "regex-dom"⟩ :=
  c7_amended docOnePrice (by with_unfolding_all rfl) (by with_unfolding_all rfl)
    (by with_unfolding_all rfl) (by with_unfolding_all rfl) (by with_unfolding_all rfl)

/-- C8 counterexample: a document containing a Product block with the
non-empty name `"Real Name"` and a conflicting `<h1>` — but preceded by a
Product block whose name is the truthy string `" "`.  The scan stops at
the first truthy-name Product block and `" ".strip() or None` returns
`None` for the whole JSON-LD step, so name extraction falls through to
the `<h1>` and returns `"Other"`, not the structured-data name. -/
theorem c8_counterexample :
    _json_ld_blocks docTwoBlocks =
      [[("@type", Json.str "Product"), ("name", Json.str " ")],
        [("@type", Json.str "Product"), ("name", Json.str "Real Name")]] ∧
    jget [("@type", Json.str "Product"), ("name", Json.str "Real Name")] "name" =
      some (Json.str "Real Name") ∧
    h1Step docTwoBlocks = some "Other" ∧
    _extract_name docTwoBlocks = .ok (some "Other") ∧
    ("Other" : String) ≠ "Real Name" := by
  with_unfolding_all exact ⟨rfl, rfl, rfl, rfl, by decide⟩

/-- C8 (amended): when the *first* Product block with a truthy name
carries a string name whose trim is non-empty, name extraction returns
that trimmed name, whatever any `<h1>` says. -/
theorem c8_amended (d : Doc) (s : String)
    (h : firstProductName (_json_ld_blocks d) = some (Json.str s))
    (hne : pyStrip s ≠ "") :
    _extract_name d = .ok (some (pyStrip s)) := by
  rw [_extract_name, jsonld_first_name h, if_neg hne]
  show (if optTruthy (some (pyStrip s)) = true then Except.ok (some (pyStrip s)) else
    match ogTitleStep d with
    | some v => .ok (some v)
    | none =>
      match h1Step d with
      | some t0 => .ok (some t0)
      | none =>
        match titleStep d with
        | some r => .ok (some r)
        | none => .ok none) = .ok (some (pyStrip s))
  rw [if_pos (by simp [optTruthy, hne])]

/-- C8 witness: the amended claim at a document with one Product block
(name `" Foo "`) and a conflicting `<h1>` (`"Bar"`). -/
theorem c8_witness : _extract_name docJsonH1 = .ok (some (pyStrip " Foo ")) :=
  c8_amended docJsonH1 " Foo " (by with_unfolding_all rfl) (by decide)

/-- C9: `_json_ld_blocks` computes, in document order, exactly the
decoding the spec describes — strip each JSON-LD script's text, decode
strictly, flatten arrays keeping only mapping-typed entries, silently
dropping empty and non-decodable blocks — and, being a total function,
never raises. -/
theorem c9_decode_blocks (d : Doc) : _json_ld_blocks d = decodeStructuredBlocks d := by
  rw [_json_ld_blocks, decodeStructuredBlocks]
  have hbody : (fun (blocks : List (List (String × Json))) (tag : Elem) =>
      let txt := scriptText tag
      if txt = "" then blocks
      else
        match _json_loads_flex txt with
        | some (.obj kvs) => blocks ++ [kvs]
        | some (.arr xs) =>
          blocks ++ xs.filterMap fun x => match x with | .obj kvs => some kvs | _ => none
        | _ => blocks) =
      fun blocks tag => blocks ++ decodeOneBlock tag := by
    funext blocks tag
    rw [decodeOneBlock]
    by_cases htxt : scriptText tag = ""
    · simp [htxt]
    · simp only [if_neg htxt]
      cases hj : _json_loads_flex (scriptText tag) with
      | none => simp
      | some j => cases j <;> simp
  rw [hbody, foldl_append_flatMap, List.nil_append]

/-- C10: whenever any price strategy succeeds, `price_text` is the
canonically re-formatted `formatBRLPrice(price_value)` — the raw matched
substring (regex or itemprop text) is discarded and the text regenerated
from the parsed value. -/
theorem c10_price_text_canonical (d : Doc) (v : ℚ) (t : String)
    (hv : (_extract_price_and_currency d).price_value = some v)
    (ht : (_extract_price_and_currency d).price_text = some t) :
    t = _fmt_brl v := by
  have h := extract_text_map d
  rw [hv, ht] at h
  simpa using h

/-- C10 witness: the raw match `"R$ 0.001,00"` in the visible text is
discarded; the reported text is the canonical rendering of the parsed
value `1`. -/
theorem c10_witness : ("R$ 1,00" : String) = _fmt_brl 1 :=
  c10_price_text_canonical docTinyPrice 1 "R$ 1,00"
    (by with_unfolding_all rfl) (by with_unfolding_all rfl)
